import Mathlib

/-!
Shallow embedding of `testsuite/forge/src/backend/local/swarm.rs`
(LocalSwarm / LocalSwarmBuilder / SwarmDirectory) in Lean 4.

External collaborators (the Node Handle `LocalNode`, the Genesis
Provisioner `aptos_genesis::builder::Builder`, the config-generation
collaborator `FullnodeNodeConfig`, the filesystem, tokio timers) are
modelled as oracle parameters: pure functions supplied in an
environment record.  Rust `Result::Err` returns and Rust panics
(`unwrap` on `None`, `assert_eq!` failure) are distinguished by the
three-way `RustResult` type.  `HashMap`s are modelled as association
lists; Rust's `HashMap` iteration order within one run is a fixed
(arbitrary) order, which the list order represents.
-/

namespace Swarm

/-- Node identifier (`PeerId`), abstracted to a natural number. -/
abbrev PeerId := Nat

/-- A version label (key of the version registry `Arc<HashMap<Version, LocalVersion>>`),
abstracted to a natural number; only its ordering and equality are used. -/
abbrev Version := Nat

/-- An installable artifact (`LocalVersion`), opaque. -/
abbrev LocalVersion := String

/-- `ConsensusConfig` fragment of `NodeConfig`: the field the builder
special-cases, plus an opaque remainder. -/
structure ConsensusConfig where
  quorum_store_poll_count : Nat
  restConsensus : String
deriving DecidableEq, Repr

/-- `NodeConfig`: the consensus fragment plus an opaque remainder. -/
structure NodeConfig where
  consensus : ConsensusConfig
  restConfig : String
deriving DecidableEq, Repr

/-- A Node Handle (`LocalNode`): name, stable peer id, in-memory config,
path of its persisted config file, and the running version. -/
structure LocalNode where
  name : String
  peer_id : PeerId
  config : NodeConfig
  config_path : String
  version : LocalVersion
deriving DecidableEq, Repr

/-- Outcome of a Rust call that can also abort the process:
`ok` models `Ok`, `err` models `Err` (recoverable), `panic` models a
process abort (`unwrap` on `None`, failed `assert_eq!`). -/
inductive RustResult (α : Type) where
  | ok (a : α)
  | err (e : String)
  | panic (msg : String)
deriving DecidableEq, Repr

/-- Panic message of `Option::unwrap` on `None`. -/
def unwrapNoneMsg : String := "called Option::unwrap() on a None value"

/-- Panic message of the `assert_eq!(peer_id, validator_peer_id)` check. -/
def assertPeerIdMsg : String := "assertion failed: peer_id == validator_peer_id"

/-! ### SwarmDirectory (Directory Lifecycle Manager) -/

/-- `SwarmDirectory`: a durable (`Persistent(PathBuf)`) or ephemeral
(`Temporary(TempDir)`) working directory; the payload is its path. -/
inductive SwarmDirectory where
  | persistent (path : String)
  | temporary (path : String)
deriving DecidableEq, Repr

namespace SwarmDirectory

/-- `SwarmDirectory::into_persistent`: `TempDir::into_path` keeps the
directory at the same path, now no longer auto-deleted. -/
def into_persistent : SwarmDirectory → SwarmDirectory
  | .temporary d => .persistent d
  | .persistent d => .persistent d

/-- `SwarmDirectory::persist`: on `Persistent` do nothing; on `Temporary`,
swap in a placeholder and replace `self` with `into_persistent` of the
old value — net effect `self := self.into_persistent()`. -/
def persist (s : SwarmDirectory) : SwarmDirectory :=
  match s with
  | .persistent _ => s
  | .temporary _ => s.into_persistent

/-- The `Deref`/`AsRef<Path>` view: the directory's filesystem path. -/
def path : SwarmDirectory → String
  | .persistent d => d
  | .temporary d => d

/-- Whether the directory is in the durable state. -/
def isPersistent : SwarmDirectory → Bool
  | .persistent _ => true
  | .temporary _ => false

end SwarmDirectory

/-! ### Startup Wait (`LocalSwarm::wait_for_startup`)

The health oracle `health : Nat → Nat → HealthCheckResult` gives the
outcome `node.health_check()` would report at probe round `r` for the
validator at iteration position `q`. -/

/-- Outcome of one `health_check()` call:
`Ok(())`, `Err(Unknown(e))`, `Err(NotRunning(e))`, `Err(Failure(e))`. -/
inductive HealthCheckResult where
  | healthy
  | unknown (e : String)
  | notRunning (e : String)
  | failure (e : String)
deriving DecidableEq, Repr

/-- Result of `wait_for_startup`: success, the fatal
`"Node '{name}' is not running! Error: {e}"` error, or
`"Launching Swarm timed out"`. -/
inductive StartupResult where
  | ok
  | fatal (nodeName : String) (err : String)
  | timeout
deriving DecidableEq, Repr

/-- One inner round of `wait_for_startup`: walk the validators (from
iteration position `idx`) zipped with their `done` flags; skip finished
ones; on `Ok` mark done; on `Unknown`/`NotRunning` stop with the fatal
error payload; on `Failure` break out of the round.  Returns the updated
flags, the probes performed as `(round, position)` pairs, and the fatal
payload if any. -/
def runRound (health : Nat → Nat → HealthCheckResult) (names : List String)
    (round : Nat) : Nat → List Bool →
    List Bool × List (Nat × Nat) × Option (String × String)
  | _, [] => ([], [], none)
  | idx, d :: rest =>
    if d then
      let r := runRound health names round (idx + 1) rest
      (d :: r.1, r.2.1, r.2.2)
    else
      match health round idx with
      | .healthy =>
        let r := runRound health names round (idx + 1) rest
        (true :: r.1, (round, idx) :: r.2.1, r.2.2)
      | .unknown e => (false :: rest, [(round, idx)], some (names.getD idx "", e))
      | .notRunning e => (false :: rest, [(round, idx)], some (names.getD idx "", e))
      | .failure _ => (false :: rest, [(round, idx)], none)

/-- The outer loop of `wait_for_startup`: `k` attempts remaining, current
round index `round`, current `done` flags.  Returns the result, the full
probe trace, and the final `done` flags. -/
def waitLoop (health : Nat → Nat → HealthCheckResult) (names : List String) :
    Nat → Nat → List Bool → StartupResult × List (Nat × Nat) × List Bool
  | 0, _, done => (.timeout, [], done)
  | k + 1, round, done =>
    let r := runRound health names round 0 done
    match r.2.2 with
    | some f => (.fatal f.1 f.2, r.2.1, r.1)
    | none =>
      if r.1.all (fun b => b) then (.ok, r.2.1, r.1)
      else
        let w := waitLoop health names k (round + 1) r.1
        (w.1, r.2.1 ++ w.2.1, w.2.2)

/-- `LocalSwarm::wait_for_startup`: `num_attempts = 10`,
`done = vec![false; n]`, then the attempt loop. -/
def wait_for_startup (health : Nat → Nat → HealthCheckResult)
    (names : List String) : StartupResult × List (Nat × Nat) × List Bool :=
  waitLoop health names 10 0 (List.replicate names.length false)

/-! ### The swarm state and its collaborators -/

/-- Key-value lookup in an association-list map (`HashMap::get`). -/
def mapGet {α : Type} (m : List (PeerId × α)) (k : PeerId) : Option α :=
  (m.find? (fun p => p.1 = k)).map (·.2)

/-- `HashMap::insert`: bind `k` to `v`, replacing any previous binding. -/
def mapInsert {α : Type} (m : List (PeerId × α)) (k : PeerId) (v : α) :
    List (PeerId × α) :=
  (k, v) :: m.filter (fun p => ¬ p.1 = k)

/-- `HashMap::remove`: drop the binding of `k` if present. -/
def mapRemove {α : Type} (m : List (PeerId × α)) (k : PeerId) :
    List (PeerId × α) :=
  m.filter (fun p => ¬ p.1 = k)

/-- Registry lookup by version label (`self.versions.get(version)`). -/
def versionGet (m : List (Version × LocalVersion)) (k : Version) :
    Option LocalVersion :=
  (m.find? (fun p => p.1 = k)).map (·.2)

/-- The config produced by the config-generation collaborator
(`FullnodeNodeConfig`): the fields `swarm.rs` reads. -/
structure FullnodeNodeConfig where
  name : String
  dir : String
deriving DecidableEq, Repr

/-- Per-validator descriptor returned by the Genesis Provisioner. -/
structure ValidatorInfo where
  name : String
  dir : String
deriving DecidableEq, Repr

/-- Oracles for every external collaborator `swarm.rs` calls.  Each
fallible Rust call is a pure function returning `Except`; the swarm code
under verification is everything else. -/
structure Env where
  /-- `FullnodeNodeConfig::validator_fullnode(name, dir, template, &mut validator_config, waypoint, genesis)`:
  returns the fullnode config and the mutated validator config. -/
  validator_fullnode : String → String → NodeConfig → NodeConfig → String → String →
    Except String (FullnodeNodeConfig × NodeConfig)
  /-- `FullnodeNodeConfig::public_fullnode(name, dir, template, waypoint, genesis)`. -/
  public_fullnode : String → String → NodeConfig → String → String →
    Except String FullnodeNodeConfig
  /-- `LocalNode::new(version, name, dir)`: the handle it builds, with its
  own `peer_id` read from the node's identity files. -/
  localNode_new : LocalVersion → String → String → Except String LocalNode
  /-- `NodeConfig::save(path)`: persist a config to disk. -/
  save_config : NodeConfig → String → Except String Unit
  /-- `LocalNode::restart()`. -/
  restart : LocalNode → Except String Unit
  /-- `LocalNode::start()`. -/
  start : LocalNode → Except String Unit
  /-- `LocalNode::upgrade(version)`: returns the upgraded handle. -/
  upgrade : LocalNode → LocalVersion → Except String LocalNode
  /-- `Path::exists`. -/
  dir_exists : String → Bool
  /-- `fs::remove_dir_all`. -/
  remove_dir_all : String → Except String Unit
  /-- `fs::create_dir_all`. -/
  create_dir_all : String → Except String Unit
  /-- `TempDir::new()`: the fresh temporary path. -/
  temp_dir_new : Except String String
  /-- `cached_framework_packages::module_blobs()`. -/
  default_modules : List String
  /-- `aptos_genesis::builder::Builder::new(dir, modules).with_num_validators(n).with_template(t).with_min_price_per_gas_unit(p).build(rng)`:
  returns `(root_key, genesis, waypoint, validators)`. -/
  genesis_build : String → List String → Nat → NodeConfig → Nat →
    Except String (String × String × String × List ValidatorInfo)

/-- `LocalSwarm`: the Swarm Runtime state. -/
structure LocalSwarm where
  node_name_counter : Nat
  genesis : String
  genesis_waypoint : String
  versions : List (Version × LocalVersion)
  validators : List (PeerId × LocalNode)
  fullnodes : List (PeerId × LocalNode)
  dir : SwarmDirectory
  root_account : String
  chain_id : Nat
deriving DecidableEq, Repr

/-! ### Topology mutation operations -/

/-- `LocalSwarm::add_validator_fullnode(version, template, validator_peer_id)`.
Returns the Rust outcome and the swarm state as left by the call
(mutations made before an error persist, as in the source). -/
def add_validator_fullnode (env : Env) (swarm : LocalSwarm) (version : Version)
    (template : NodeConfig) (validator_peer_id : PeerId) :
    RustResult PeerId × LocalSwarm :=
  match mapGet swarm.validators validator_peer_id with
  | none => (.err s!"no validator with peer_id: {validator_peer_id}", swarm)
  | some validator =>
    if (mapGet swarm.fullnodes validator_peer_id).isSome then
      (.err s!"VFN for validator {validator_peer_id} already configured", swarm)
    else
      let validator_config := validator.config
      let name := toString swarm.node_name_counter
      let swarm := { swarm with node_name_counter := swarm.node_name_counter + 1 }
      match env.validator_fullnode name (SwarmDirectory.path swarm.dir) template
          validator_config swarm.genesis_waypoint swarm.genesis with
      | .error e => (.err e, swarm)
      | .ok fc =>
        let fullnode_config := fc.1
        let validator_config := fc.2
        match env.save_config validator_config validator.config_path with
        | .error e => (.err e, swarm)
        | .ok _ =>
          let validator := { validator with config := validator_config }
          let swarm := { swarm with
            validators := mapInsert swarm.validators validator_peer_id validator }
          match env.restart validator with
          | .error e => (.err e, swarm)
          | .ok _ =>
            match versionGet swarm.versions version with
            | none => (.panic unwrapNoneMsg, swarm)
            | some v =>
              match env.localNode_new v fullnode_config.name fullnode_config.dir with
              | .error e => (.err e, swarm)
              | .ok fullnode =>
                let peer_id := fullnode.peer_id
                if peer_id = validator_peer_id then
                  match env.start fullnode with
                  | .error e => (.err e, swarm)
                  | .ok _ =>
                    (.ok peer_id,
                     { swarm with
                       fullnodes := mapInsert swarm.fullnodes peer_id fullnode })
                else (.panic assertPeerIdMsg, swarm)

/-- `LocalSwarm::add_fullnode(version, template)` (the body of the trait
method `add_full_node`). -/
def add_fullnode (env : Env) (swarm : LocalSwarm) (version : Version)
    (template : NodeConfig) : RustResult PeerId × LocalSwarm :=
  let name := toString swarm.node_name_counter
  let swarm := { swarm with node_name_counter := swarm.node_name_counter + 1 }
  match env.public_fullnode name (SwarmDirectory.path swarm.dir) template
      swarm.genesis_waypoint swarm.genesis with
  | .error e => (.err e, swarm)
  | .ok fullnode_config =>
    match versionGet swarm.versions version with
    | none => (.panic unwrapNoneMsg, swarm)
    | some v =>
      match env.localNode_new v fullnode_config.name fullnode_config.dir with
      | .error e => (.err e, swarm)
      | .ok fullnode =>
        let peer_id := fullnode.peer_id
        match env.start fullnode with
        | .error e => (.err e, swarm)
        | .ok _ =>
          (.ok peer_id,
           { swarm with fullnodes := mapInsert swarm.fullnodes peer_id fullnode })

/-- `Swarm::add_full_node` for `LocalSwarm`: delegates to `add_fullnode`. -/
def add_full_node (env : Env) (swarm : LocalSwarm) (version : Version)
    (template : NodeConfig) : RustResult PeerId × LocalSwarm :=
  add_fullnode env swarm version template

/-- `Swarm::remove_full_node` for `LocalSwarm`: stop and drop the node if
present, succeed either way. -/
def remove_full_node (swarm : LocalSwarm) (id : PeerId) :
    RustResult Unit × LocalSwarm :=
  match mapGet swarm.fullnodes id with
  | some _ => (.ok (), { swarm with fullnodes := mapRemove swarm.fullnodes id })
  | none => (.ok (), swarm)

/-- `Swarm::upgrade_validator` for `LocalSwarm`: resolve the version label
first (`Invalid version`), then the validator id (`Invalid id`), then
delegate the in-place upgrade to the Node Handle. -/
def upgrade_validator (env : Env) (swarm : LocalSwarm) (id : PeerId)
    (version : Version) : RustResult Unit × LocalSwarm :=
  match versionGet swarm.versions version with
  | none => (.err s!"Invalid version: {version}", swarm)
  | some v =>
    match mapGet swarm.validators id with
    | none => (.err s!"Invalid id: {id}", swarm)
    | some validator =>
      match env.upgrade validator v with
      | .error e => (.err e, swarm)
      | .ok validator =>
        (.ok (), { swarm with validators := mapInsert swarm.validators id validator })

/-! ### The builder (`LocalSwarmBuilder`) -/

/-- `LocalSwarmBuilder`: accumulated topology configuration. -/
structure LocalSwarmBuilder where
  versions : List (Version × LocalVersion)
  initial_version : Option Version
  template : NodeConfig
  number_of_validators : Nat
  dir : Option String
  genesis_modules : Option (List String)
  min_price_per_gas_unit : Nat
deriving DecidableEq, Repr

/-- The template handed to the Genesis Provisioner: when there is exactly
one validator, `template.consensus.quorum_store_poll_count` is set to 30;
otherwise the template is passed through unchanged. -/
def adjustedTemplate (b : LocalSwarmBuilder) : NodeConfig :=
  if b.number_of_validators = 1 then
    { b.template with
      consensus := { b.template.consensus with quorum_store_poll_count := 30 } }
  else b.template

/-- `versions.iter().max_by(|v1, v2| v1.0.cmp(v2.0))`: the entry with the
maximal label (`none` on an empty registry; ties keep the earlier entry,
which cannot arise for a map). -/
def maxByKey (m : List (Version × LocalVersion)) :
    Option (Version × LocalVersion) :=
  m.foldl (fun acc p =>
    match acc with
    | none => some p
    | some q => if q.1 < p.1 then some p else some q) none

/-- Instantiate a Node Handle for every validator descriptor and key the
Validator Set by each handle's own `peer_id`. -/
def buildValidators (env : Env) (version : LocalVersion) :
    List ValidatorInfo → Except String (List (PeerId × LocalNode))
  | [] => .ok []
  | v :: rest =>
    match env.localNode_new version v.name v.dir with
    | .error e => .error e
    | .ok node =>
      match buildValidators env version rest with
      | .error e => .error e
      | .ok tail => .ok ((node.peer_id, node) :: tail)

/-- Step 1 of `build`: resolve the working directory (durable when an
explicit path was configured — wiping it first if it exists — else a
fresh ephemeral directory). -/
def resolveDir (env : Env) (b : LocalSwarmBuilder) : Except String SwarmDirectory :=
  match b.dir with
  | some d =>
    match (if env.dir_exists d then env.remove_dir_all d else .ok ()) with
    | .error e => .error e
    | .ok _ =>
      match env.create_dir_all d with
      | .error e => .error e
      | .ok _ => .ok (SwarmDirectory.persistent d)
  | none =>
    match env.temp_dir_new with
    | .error e => .error e
    | .ok t => .ok (SwarmDirectory.temporary t)

/-- `LocalSwarmBuilder::build(rng)` (the randomness source is folded into
`env.genesis_build`).  Mirrors the source's order: directory, template
special case, genesis, initial-version resolution (`unwrap` panics), the
registry lookup (`unwrap` panics), node instantiation, swarm assembly. -/
def build (env : Env) (b : LocalSwarmBuilder) : RustResult LocalSwarm :=
  match resolveDir env b with
  | .error e => .err e
  | .ok dir =>
    let template := adjustedTemplate b
    let modules := b.genesis_modules.getD env.default_modules
    match env.genesis_build (SwarmDirectory.path dir) modules
        b.number_of_validators template b.min_price_per_gas_unit with
    | .error e => .err e
    | .ok g =>
      let root_key := g.1
      let genesis := g.2.1
      let genesis_waypoint := g.2.2.1
      let validatorInfos := g.2.2.2
      match (match b.initial_version with
             | some v => some v
             | none => (maxByKey b.versions).map (·.1)) with
      | none => .panic unwrapNoneMsg
      | some initial_version =>
        match versionGet b.versions initial_version with
        | none => .panic unwrapNoneMsg
        | some version =>
          match buildValidators env version validatorInfos with
          | .error e => .err e
          | .ok validators =>
            .ok {
              node_name_counter := validators.length,
              genesis := genesis,
              genesis_waypoint := genesis_waypoint,
              versions := b.versions,
              validators := validators,
              fullnodes := [],
              dir := dir,
              root_account := root_key,
              chain_id := 4 }

/-! ### Sequences of topology-mutation operations (for name uniqueness) -/

/-- One add/remove operation on a running swarm. -/
inductive SwarmOp where
  | addFull (version : Version) (template : NodeConfig)
  | addVFN (version : Version) (template : NodeConfig) (vid : PeerId)
  | removeFull (id : PeerId)
deriving DecidableEq, Repr

/-- The swarm state after one operation. -/
def applyOp (env : Env) (s : LocalSwarm) : SwarmOp → LocalSwarm
  | .addFull v t => (add_fullnode env s v t).2
  | .addVFN v t vid => (add_validator_fullnode env s v t vid).2
  | .removeFull id => (remove_full_node s id).2

/-- The node names an operation generates (the `let name =
self.node_name_counter.to_string()` binding): one for `add_fullnode`,
one for `add_validator_fullnode` once its two lookup checks pass,
none otherwise. -/
def opGenNames (s : LocalSwarm) : SwarmOp → List String
  | .addFull _ _ => [toString s.node_name_counter]
  | .addVFN _ _ vid =>
    match mapGet s.validators vid with
    | none => []
    | some _ =>
      if (mapGet s.fullnodes vid).isSome then []
      else [toString s.node_name_counter]
  | .removeFull _ => []

/-- Run a sequence of operations, collecting every generated node name. -/
def runOps (env : Env) (s : LocalSwarm) : List SwarmOp → List String × LocalSwarm
  | [] => ([], s)
  | op :: rest =>
    let r := runOps env (applyOp env s op) rest
    (opGenNames s op ++ r.1, r.2)

/-! ### Injectivity of decimal rendering (`Nat.repr`) -/

/-- The decimal digit string of `n`, via Mathlib's `Nat.digits`. -/
def digitsRepr (n : Nat) : List Char :=
  if n = 0 then ['0'] else ((Nat.digits 10 n).map Nat.digitChar).reverse

/-- The `done` flag of validator position `j`. -/
def flag (done : List Bool) (j : Nat) : Bool := done.getD j false

/-! ### Concrete fixtures used to witness the theorems -/

/-- Two validator names. -/
def twoNames : List String := ["alice", "bob"]

/-- Health oracle where the second validator's process has crashed. -/
def healthCrash : Nat → Nat → HealthCheckResult :=
  fun _ q => if q = 0 then .healthy else .notRunning "crashed"

/-- Health oracle where the second validator is slow for one round and
healthy afterwards. -/
def healthSlow : Nat → Nat → HealthCheckResult :=
  fun r q => if q = 1 && r = 0 then .failure "warming up" else .healthy

/-- A sample node config. -/
def cfgA : NodeConfig :=
  { consensus := { quorum_store_poll_count := 10, restConsensus := "c" },
    restConfig := "x" }

/-- A sample validator handle with identifier 7. -/
def nodeA : LocalNode :=
  { name := "0", peer_id := 7, config := cfgA,
    config_path := "/v/0/node.yaml", version := "v1-bin" }

/-- A sample paired full-node handle sharing identifier 7. -/
def nodeAF : LocalNode :=
  { name := "1", peer_id := 7, config := cfgA,
    config_path := "/f/1/node.yaml", version := "v1-bin" }

/-- A collaborator environment in which every external call succeeds and
a created node's identifier is 7. -/
def envId : Env :=
  { validator_fullnode := fun name _ _ vcfg _ _ =>
      .ok ({ name := name, dir := "/d/" ++ name }, vcfg),
    public_fullnode := fun name _ _ _ _ => .ok { name := name, dir := "/d/" ++ name },
    localNode_new := fun v name dir =>
      .ok { name := name, peer_id := 7, config := cfgA,
            config_path := dir ++ "/node.yaml", version := v },
    save_config := fun _ _ => .ok (),
    restart := fun _ => .ok (),
    start := fun _ => .ok (),
    upgrade := fun n v => .ok { n with version := v },
    dir_exists := fun _ => false,
    remove_dir_all := fun _ => .ok (),
    create_dir_all := fun _ => .ok (),
    temp_dir_new := .ok "/tmp/swarm",
    default_modules := ["mod"],
    genesis_build := fun _ _ n _ _ =>
      .ok ("rootkey", "genesis", "waypoint",
        (List.range n).map (fun i => { name := toString i, dir := "/v/" ++ toString i })) }

/-- Like `envId` but the config-generation collaborator hands back a node
whose identifier is 8 instead of the expected one. -/
def envBadId : Env :=
  { envId with
    localNode_new := fun v name dir =>
      .ok { name := name, peer_id := 8, config := cfgA,
            config_path := dir ++ "/node.yaml", version := v } }

/-- A swarm with one validator (id 7) that already has a paired full node. -/
def swarmA : LocalSwarm :=
  { node_name_counter := 2, genesis := "genesis", genesis_waypoint := "waypoint",
    versions := [(1, "v1-bin")],
    validators := [(7, nodeA)],
    fullnodes := [(7, nodeAF)],
    dir := .temporary "/tmp/swarm", root_account := "rootkey", chain_id := 4 }

/-- A swarm with one validator (id 7) and no full nodes. -/
def swarmB : LocalSwarm :=
  { node_name_counter := 1, genesis := "genesis", genesis_waypoint := "waypoint",
    versions := [(1, "v1-bin")],
    validators := [(7, nodeA)],
    fullnodes := [],
    dir := .temporary "/tmp/swarm", root_account := "rootkey", chain_id := 4 }

/-- A single-validator builder whose template poll count is 100. -/
def b100 : LocalSwarmBuilder :=
  { versions := [(1, "v1-bin")], initial_version := some 1,
    template := { cfgA with consensus :=
      { cfgA.consensus with quorum_store_poll_count := 100 } },
    number_of_validators := 1, dir := none,
    genesis_modules := some ["mod"], min_price_per_gas_unit := 1 }

/-- A two-validator builder. -/
def b2 : LocalSwarmBuilder := { b100 with number_of_validators := 2 }

/-- A builder that explicitly selects version label 2, which is absent
from its registry. -/
def builderNoV2 : LocalSwarmBuilder := { b100 with initial_version := some 2 }

/-- A builder with an empty version registry and no initial version. -/
def builderEmptyV : LocalSwarmBuilder :=
  { b100 with versions := [], initial_version := none }

theorem toDigitsCore_eq_digitsRepr :
    ∀ (fuel n : Nat) (ds : List Char), n < fuel →
      Nat.toDigitsCore 10 fuel n ds = digitsRepr n ++ ds := by
  intro fuel
  induction fuel with
  | zero => intro n ds h; exact absurd h (Nat.not_lt_zero n)
  | succ f ih =>
    intro n ds h
    rw [Nat.toDigitsCore]
    by_cases hz : n / 10 = 0
    · have hn10 : n < 10 := by omega
      simp only [hz, if_pos]
      by_cases h0 : n = 0
      · subst h0; simp [digitsRepr]; rfl
      · have : Nat.digits 10 n = [n] := by
          rw [Nat.digits_def' (by norm_num : (1:ℕ) < 10) (Nat.pos_of_ne_zero h0)]
          rw [hz, Nat.mod_eq_of_lt hn10]
          simp
        simp [digitsRepr, h0, this, Nat.mod_eq_of_lt hn10]
    · have h0 : n ≠ 0 := by omega
      have hlt : n / 10 < f := by
        have : n / 10 < n := Nat.div_lt_self (Nat.pos_of_ne_zero h0) (by norm_num)
        omega
      simp only [hz, if_neg, if_false]
      rw [ih (n / 10) _ hlt]
      have hstep : digitsRepr n = digitsRepr (n / 10) ++ [Nat.digitChar (n % 10)] := by
        have hd : Nat.digits 10 n = n % 10 :: Nat.digits 10 (n / 10) :=
          Nat.digits_def' (by norm_num : (1:ℕ) < 10) (Nat.pos_of_ne_zero h0)
        simp [digitsRepr, h0, hz, hd]
      rw [hstep, List.append_assoc]
      rfl

theorem toDigits_eq_digitsRepr (n : Nat) :
    Nat.toDigits 10 n = digitsRepr n := by
  have := toDigitsCore_eq_digitsRepr (n + 1) n [] (Nat.lt_succ_self n)
  simpa [Nat.toDigits] using this

theorem digitChar_inj_lt :
    ∀ a < 10, ∀ b < 10, Nat.digitChar a = Nat.digitChar b → a = b := by decide

theorem map_digitChar_inj :
    ∀ (l₁ l₂ : List Nat), (∀ x ∈ l₁, x < 10) → (∀ x ∈ l₂, x < 10) →
      l₁.map Nat.digitChar = l₂.map Nat.digitChar → l₁ = l₂ := by
  intro l₁
  induction l₁ with
  | nil => intro l₂ _ _ h; cases l₂ <;> simp_all
  | cons a t ih =>
    intro l₂ h₁ h₂ h
    cases l₂ with
    | nil => simp_all
    | cons b t₂ =>
      simp only [List.map_cons, List.cons.injEq] at h
      have ha : a = b :=
        digitChar_inj_lt a (h₁ a (by simp)) b (h₂ b (by simp)) h.1
      have ht : t = t₂ :=
        ih t₂ (fun x hx => h₁ x (by simp [hx])) (fun x hx => h₂ x (by simp [hx])) h.2
      rw [ha, ht]

theorem digitsRepr_inj (m n : Nat) (h : digitsRepr m = digitsRepr n) : m = n := by
  by_cases hm : m = 0 <;> by_cases hn : n = 0
  · omega
  · exfalso
    simp only [digitsRepr, hm, hn, if_pos, if_neg, if_true, if_false] at h
    have hrev : (Nat.digits 10 n).map Nat.digitChar = ['0'] := by
      have := congrArg List.reverse h
      simpa using this.symm
    obtain ⟨d, hd⟩ : ∃ d, Nat.digits 10 n = [d] := by
      rcases hdig : Nat.digits 10 n with _ | ⟨d, t⟩
      · rw [hdig] at hrev; simp at hrev
      · rw [hdig] at hrev
        simp only [List.map_cons, List.cons.injEq] at hrev
        have : t.map Nat.digitChar = [] := hrev.2
        have ht : t = [] := by simpa using this
        exact ⟨d, by rw [ht]⟩
    have hd10 : d < 10 :=
      Nat.digits_lt_base (by norm_num) (by rw [hd]; simp)
    have hd0 : Nat.digitChar d = '0' := by
      rw [hd] at hrev; simpa using hrev
    have : d = 0 := digitChar_inj_lt d hd10 0 (by norm_num) hd0
    have : Nat.digits 10 n = [0] := by rw [hd, this]
    have := congrArg (Nat.ofDigits 10) this
    rw [Nat.ofDigits_digits] at this
    simp [Nat.ofDigits] at this
    exact hn this
  · exfalso
    simp only [digitsRepr, hm, hn, if_pos, if_neg, if_true, if_false] at h
    have hrev : (Nat.digits 10 m).map Nat.digitChar = ['0'] := by
      have := congrArg List.reverse h
      simpa using this
    obtain ⟨d, hd⟩ : ∃ d, Nat.digits 10 m = [d] := by
      rcases hdig : Nat.digits 10 m with _ | ⟨d, t⟩
      · rw [hdig] at hrev; simp at hrev
      · rw [hdig] at hrev
        simp only [List.map_cons, List.cons.injEq] at hrev
        have : t.map Nat.digitChar = [] := hrev.2
        have ht : t = [] := by simpa using this
        exact ⟨d, by rw [ht]⟩
    have hd10 : d < 10 :=
      Nat.digits_lt_base (by norm_num) (by rw [hd]; simp)
    have hd0 : Nat.digitChar d = '0' := by
      rw [hd] at hrev; simpa using hrev
    have : d = 0 := digitChar_inj_lt d hd10 0 (by norm_num) hd0
    have : Nat.digits 10 m = [0] := by rw [hd, this]
    have := congrArg (Nat.ofDigits 10) this
    rw [Nat.ofDigits_digits] at this
    simp [Nat.ofDigits] at this
    exact hm this
  · simp only [digitsRepr, hm, hn, if_neg, if_false] at h
    have := congrArg List.reverse h
    simp only [List.reverse_reverse] at this
    have hdig := map_digitChar_inj (Nat.digits 10 m) (Nat.digits 10 n)
      (fun x hx => Nat.digits_lt_base (by norm_num) hx)
      (fun x hx => Nat.digits_lt_base (by norm_num) hx) this
    exact Nat.digits_inj_iff.mp hdig

theorem natRepr_inj (m n : Nat) (h : Nat.repr m = Nat.repr n) : m = n := by
  apply digitsRepr_inj
  have hm := toDigits_eq_digitsRepr m
  have hn := toDigits_eq_digitsRepr n
  unfold Nat.repr at h
  rw [hm, hn] at h
  have := congrArg String.data h
  simpa [List.asString] using this

theorem natToString_inj (m n : Nat) (h : toString m = toString n) : m = n :=
  natRepr_inj m n h

/-! ### Lemmas about one round of the Startup Wait -/

@[simp] theorem flag_nil (j : Nat) : flag [] j = false := rfl

@[simp] theorem flag_cons_zero (d : Bool) (rest : List Bool) :
    flag (d :: rest) 0 = d := rfl

@[simp] theorem flag_cons_succ (d : Bool) (rest : List Bool) (j : Nat) :
    flag (d :: rest) (j + 1) = flag rest j := rfl

theorem runRound_length (health : Nat → Nat → HealthCheckResult)
    (names : List String) (round : Nat) :
    ∀ (done : List Bool) (idx : Nat),
      (runRound health names round idx done).1.length = done.length := by
  intro done
  induction done with
  | nil => intro idx; rfl
  | cons d rest ih =>
    intro idx
    simp only [runRound]
    cases d
    · rcases hh : health round idx with _ | e | e | e <;> simp [hh, ih]
    · simp [ih]

theorem runRound_probes (health : Nat → Nat → HealthCheckResult)
    (names : List String) (round : Nat) :
    ∀ (done : List Bool) (idx : Nat) (p : Nat × Nat),
      p ∈ (runRound health names round idx done).2.1 →
      p.1 = round ∧ idx ≤ p.2 ∧ p.2 < idx + done.length := by
  intro done
  induction done with
  | nil => intro idx p hp; simp [runRound] at hp
  | cons d rest ih =>
    intro idx p hp
    simp only [runRound] at hp
    cases d
    · simp only [Bool.false_eq_true, if_false] at hp
      rcases hh : health round idx with _ | e | e | e <;>
        simp only [hh] at hp
      · rcases List.mem_cons.mp hp with h | h
        · subst h
          exact ⟨rfl, Nat.le_refl _, by simp only [List.length_cons]; omega⟩
        · obtain ⟨h1, h2, h3⟩ := ih (idx + 1) p h
          simp only [List.length_cons] at h3 ⊢
          exact ⟨h1, by omega, by omega⟩
      all_goals
        first
        | (simp only [List.mem_singleton] at hp
           subst hp
           exact ⟨rfl, Nat.le_refl _, by simp only [List.length_cons]; omega⟩)
    · simp only [if_true] at hp
      obtain ⟨h1, h2, h3⟩ := ih (idx + 1) p hp
      simp only [List.length_cons] at h3 ⊢
      exact ⟨h1, by omega, by omega⟩

/-- Only still-pending validators are probed. -/
theorem runRound_pending (health : Nat → Nat → HealthCheckResult)
    (names : List String) (round : Nat) :
    ∀ (done : List Bool) (idx j : Nat),
      (round, idx + j) ∈ (runRound health names round idx done).2.1 →
      flag done j = false := by
  intro done
  induction done with
  | nil => intro idx j hp; simp [runRound] at hp
  | cons d rest ih =>
    intro idx j hp
    simp only [runRound] at hp
    cases d
    · simp only [Bool.false_eq_true, if_false] at hp
      rcases hh : health round idx with _ | e | e | e <;>
        simp only [hh] at hp
      · cases j with
        | zero => rfl
        | succ j =>
          rw [flag_cons_succ]
          rcases List.mem_cons.mp hp with h | h
          · exfalso
            have h2 : idx + (j + 1) = idx := congrArg Prod.snd h
            omega
          · exact ih (idx + 1) j (by
              have harith : idx + (j + 1) = (idx + 1) + j := by omega
              rwa [harith] at h)
      all_goals
        cases j with
        | zero => rfl
        | succ j =>
          exfalso
          have h2 : idx + (j + 1) = idx :=
            congrArg Prod.snd (List.mem_singleton.mp hp)
          omega
    · simp only [if_true] at hp
      cases j with
      | zero =>
        exfalso
        obtain ⟨-, h2, -⟩ := runRound_probes health names round rest (idx + 1)
          (round, idx + 0) hp
        simp at h2
      | succ j =>
        rw [flag_cons_succ]
        exact ih (idx + 1) j (by
          have harith : idx + (j + 1) = (idx + 1) + j := by omega
          rwa [harith] at hp)

/-- Characterization of the updated `done` flags after one round: a
validator is marked done afterwards iff it was done before or its probe
this round reported healthy. -/
theorem runRound_flag_iff (health : Nat → Nat → HealthCheckResult)
    (names : List String) (round : Nat) :
    ∀ (done : List Bool) (idx j : Nat),
      flag (runRound health names round idx done).1 j = true ↔
      (flag done j = true ∨
        ((round, idx + j) ∈ (runRound health names round idx done).2.1 ∧
         health round (idx + j) = .healthy)) := by
  intro done
  induction done with
  | nil => intro idx j; simp [runRound]
  | cons d rest ih =>
    intro idx j
    simp only [runRound]
    cases d
    · simp only [Bool.false_eq_true, if_false]
      rcases hh : health round idx with _ | e | e | e <;> simp only [hh]
      · cases j with
        | zero =>
          constructor
          · intro _
            exact Or.inr ⟨by simp, by simpa using hh⟩
          · intro _; rfl
        | succ j =>
          simp only [flag_cons_succ]
          rw [ih (idx + 1) j]
          have harith : idx + (j + 1) = (idx + 1) + j := by omega
          rw [harith]
          constructor
          · rintro (h | ⟨hm, hhl⟩)
            · exact Or.inl h
            · exact Or.inr ⟨List.mem_cons_of_mem _ hm, hhl⟩
          · rintro (h | ⟨hm, hhl⟩)
            · exact Or.inl h
            · rcases List.mem_cons.mp hm with h' | h'
              · exfalso
                have h2 : (idx + 1) + j = idx := congrArg Prod.snd h'
                omega
              · exact Or.inr ⟨h', hhl⟩
      all_goals
        cases j with
        | zero => simp [hh]
        | succ j =>
          rw [flag_cons_succ]
          constructor
          · intro h; exact Or.inl h
          · rintro (h | ⟨hm, -⟩)
            · exact h
            · exfalso
              have h2 : idx + (j + 1) = idx :=
                congrArg Prod.snd (List.mem_singleton.mp hm)
              omega
    · simp only [if_true]
      cases j with
      | zero =>
        constructor
        · intro _; exact Or.inl rfl
        · intro _; rfl
      | succ j =>
        simp only [flag_cons_succ]
        rw [ih (idx + 1) j]
        have harith : idx + (j + 1) = (idx + 1) + j := by omega
        rw [harith]

/-- A probe that reports `Unknown` or `NotRunning` ends the round: it is
the last probe, and the round's fatal payload names that node. -/
theorem runRound_fatal_of_probe (health : Nat → Nat → HealthCheckResult)
    (names : List String) (round : Nat) :
    ∀ (done : List Bool) (idx q : Nat) (e : String),
      (round, q) ∈ (runRound health names round idx done).2.1 →
      (health round q = .unknown e ∨ health round q = .notRunning e) →
      (runRound health names round idx done).2.2 = some (names.getD q "", e) ∧
      (runRound health names round idx done).2.1.getLast? = some (round, q) := by
  intro done
  induction done with
  | nil => intro idx q e hp _; simp [runRound] at hp
  | cons d rest ih =>
    intro idx q e hp hf
    simp only [runRound] at hp ⊢
    cases d
    · simp only [Bool.false_eq_true, if_false] at hp ⊢
      rcases hh : health round idx with _ | e' | e' | e' <;>
        simp only [hh] at hp ⊢
      · rcases List.mem_cons.mp hp with h | h
        · exfalso
          have h2 : q = idx := congrArg Prod.snd h
          subst h2
          rcases hf with hf | hf <;> rw [hh] at hf <;> exact absurd hf (by simp)
        · obtain ⟨h1, h2⟩ := ih (idx + 1) q e h hf
          refine ⟨h1, ?_⟩
          rcases hpr : (runRound health names round (idx + 1) rest).2.1 with _ | ⟨a, l⟩
          · rw [hpr] at h; simp at h
          · rw [hpr] at h2
            rw [List.getLast?_cons_cons]
            exact h2
      · have h2 : q = idx := congrArg Prod.snd (List.mem_singleton.mp hp)
        subst h2
        rcases hf with hf | hf <;> rw [hh] at hf
        · injection hf with he
          subst he
          exact ⟨rfl, by simp⟩
        · exact absurd hf (by simp)
      · have h2 : q = idx := congrArg Prod.snd (List.mem_singleton.mp hp)
        subst h2
        rcases hf with hf | hf <;> rw [hh] at hf
        · exact absurd hf (by simp)
        · injection hf with he
          subst he
          exact ⟨rfl, by simp⟩
      · have h2 : q = idx := congrArg Prod.snd (List.mem_singleton.mp hp)
        subst h2
        rcases hf with hf | hf <;> rw [hh] at hf <;> exact absurd hf (by simp)
    · simp only [if_true] at hp ⊢
      exact ih (idx + 1) q e hp hf

/-- A fatal round outcome is caused by some probe that reported `Unknown`
or `NotRunning` with the same error payload. -/
theorem runRound_fatal_src (health : Nat → Nat → HealthCheckResult)
    (names : List String) (round : Nat) :
    ∀ (done : List Bool) (idx : Nat) (nm e : String),
      (runRound health names round idx done).2.2 = some (nm, e) →
      ∃ q, (round, q) ∈ (runRound health names round idx done).2.1 ∧
        (health round q = .unknown e ∨ health round q = .notRunning e) := by
  intro done
  induction done with
  | nil => intro idx nm e h; simp [runRound] at h
  | cons d rest ih =>
    intro idx nm e h
    simp only [runRound] at h ⊢
    cases d
    · simp only [Bool.false_eq_true, if_false] at h ⊢
      rcases hh : health round idx with _ | e' | e' | e' <;>
        simp only [hh] at h ⊢
      · obtain ⟨q, hq1, hq2⟩ := ih (idx + 1) nm e h
        exact ⟨q, List.mem_cons_of_mem _ hq1, hq2⟩
      · injection h with h'
        have he : e' = e := congrArg Prod.snd h'
        exact ⟨idx, List.mem_singleton.mpr rfl, Or.inl (by rw [hh, he])⟩
      · injection h with h'
        have he : e' = e := congrArg Prod.snd h'
        exact ⟨idx, List.mem_singleton.mpr rfl, Or.inr (by rw [hh, he])⟩
      · simp at h
    · simp only [if_true] at h ⊢
      exact ih (idx + 1) nm e h

/-- After a fatal round the flags cannot all be set: the offending
validator is still pending. -/
theorem runRound_fatal_not_all (health : Nat → Nat → HealthCheckResult)
    (names : List String) (round : Nat) (done : List Bool) (nm e : String)
    (h : (runRound health names round 0 done).2.2 = some (nm, e)) :
    ¬ (runRound health names round 0 done).1.all (fun b => b) = true := by
  intro hall
  obtain ⟨q, hq1, hq2⟩ := runRound_fatal_src health names round done 0 nm e h
  have hq1' : (round, 0 + q) ∈ (runRound health names round 0 done).2.1 := by
    rwa [Nat.zero_add]
  have hflag : flag (runRound health names round 0 done).1 q = false := by
    rcases hfl : flag (runRound health names round 0 done).1 q
    · rfl
    · exfalso
      have := (runRound_flag_iff health names round done 0 q).mp hfl
      rcases this with hdone | ⟨-, hhl⟩
      · have := runRound_pending health names round done 0 q hq1'
        rw [this] at hdone; exact absurd hdone (by simp)
      · rw [Nat.zero_add] at hhl
        rcases hq2 with h2 | h2 <;> rw [h2] at hhl <;> simp at hhl
  obtain ⟨-, -, hqlt⟩ := runRound_probes health names round done 0 _ hq1
  rw [Nat.zero_add] at hqlt
  have hlen : q < (runRound health names round 0 done).1.length := by
    rw [runRound_length health names round done 0]; exact hqlt
  have hmem : flag (runRound health names round 0 done).1 q ∈
      (runRound health names round 0 done).1 := by
    unfold flag
    rw [List.getD_eq_getElem _ _ hlen]
    exact List.getElem_mem _
  have := List.all_eq_true.mp hall _ hmem
  rw [hflag] at this
  exact absurd this (by simp)

/-! ### Lemmas about the Startup Wait outer loop -/

theorem waitLoop_probes (health : Nat → Nat → HealthCheckResult)
    (names : List String) :
    ∀ (k round : Nat) (done : List Bool) (p : Nat × Nat),
      p ∈ (waitLoop health names k round done).2.1 →
      round ≤ p.1 ∧ p.1 < round + k ∧ p.2 < done.length := by
  intro k
  induction k with
  | zero => intro round done p hp; simp [waitLoop] at hp
  | succ k ih =>
    intro round done p hp
    simp only [waitLoop] at hp
    rcases hf : (runRound health names round 0 done).2.2 with _ | f <;>
      simp only [hf] at hp
    · by_cases hall : (runRound health names round 0 done).1.all (fun b => b) = true
      · rw [if_pos hall] at hp
        obtain ⟨h1, -, h3⟩ := runRound_probes health names round done 0 p hp
        exact ⟨by omega, by omega, by simpa using h3⟩
      · rw [if_neg hall] at hp
        rcases List.mem_append.mp hp with h | h
        · obtain ⟨h1, -, h3⟩ := runRound_probes health names round done 0 p h
          exact ⟨by omega, by omega, by simpa using h3⟩
        · obtain ⟨h1, h2, h3⟩ := ih (round + 1) _ p h
          rw [runRound_length health names round done 0] at h3
          exact ⟨by omega, by omega, h3⟩
    · obtain ⟨h1, -, h3⟩ := runRound_probes health names round done 0 p hp
      exact ⟨by omega, by omega, by simpa using h3⟩

theorem waitLoop_final_length (health : Nat → Nat → HealthCheckResult)
    (names : List String) :
    ∀ (k round : Nat) (done : List Bool),
      (waitLoop health names k round done).2.2.length = done.length := by
  intro k
  induction k with
  | zero => intro round done; rfl
  | succ k ih =>
    intro round done
    simp only [waitLoop]
    rcases hf : (runRound health names round 0 done).2.2 with _ | f <;>
      simp only [hf]
    · by_cases hall : (runRound health names round 0 done).1.all (fun b => b) = true
      · rw [if_pos hall]
        exact runRound_length health names round done 0
      · rw [if_neg hall]
        have h := ih (round + 1) (runRound health names round 0 done).1
        rw [runRound_length health names round done 0] at h
        exact h
    · exact runRound_length health names round done 0

/-- Probes of one round target pending validators; helper at offset 0. -/
theorem runRound_probe_pending0 (health : Nat → Nat → HealthCheckResult)
    (names : List String) (round : Nat) (done : List Bool) (p : Nat × Nat)
    (hp : p ∈ (runRound health names round 0 done).2.1) :
    flag done p.2 = false := by
  obtain ⟨p1, p2⟩ := p
  have h1 : p1 = round :=
    (runRound_probes health names round done 0 (p1, p2) hp).1
  subst h1
  exact runRound_pending health names p1 done 0 p2 (by rwa [Nat.zero_add])

/-- A done flag survives one round. -/
theorem runRound_flag_mono (health : Nat → Nat → HealthCheckResult)
    (names : List String) (round : Nat) (done : List Bool) (j : Nat)
    (h : flag done j = true) :
    flag (runRound health names round 0 done).1 j = true :=
  (runRound_flag_iff health names round done 0 j).mpr (Or.inl h)

/-- A validator whose flag is already set is never probed again. -/
theorem waitLoop_no_probe_of_done (health : Nat → Nat → HealthCheckResult)
    (names : List String) :
    ∀ (k round : Nat) (done : List Bool) (q r' : Nat),
      flag done q = true →
      (r', q) ∈ (waitLoop health names k round done).2.1 → False := by
  intro k
  induction k with
  | zero => intro round done q r' _ hp; simp [waitLoop] at hp
  | succ k ih =>
    intro round done q r' hdq hp
    simp only [waitLoop] at hp
    rcases hf : (runRound health names round 0 done).2.2 with _ | f <;>
      simp only [hf] at hp
    · by_cases hall : (runRound health names round 0 done).1.all (fun b => b) = true
      · rw [if_pos hall] at hp
        have := runRound_probe_pending0 health names round done (r', q) hp
        rw [hdq] at this
        exact absurd this (by simp)
      · rw [if_neg hall] at hp
        rcases List.mem_append.mp hp with h | h
        · have := runRound_probe_pending0 health names round done (r', q) h
          rw [hdq] at this
          exact absurd this (by simp)
        · exact ih (round + 1) _ q r'
            (runRound_flag_mono health names round done q hdq) h
    · have := runRound_probe_pending0 health names round done (r', q) hp
      rw [hdq] at this
      exact absurd this (by simp)

/-- Characterization of the final flags: a validator ends marked done iff
it started done or some probe in the trace reported it healthy. -/
theorem waitLoop_flag_iff (health : Nat → Nat → HealthCheckResult)
    (names : List String) :
    ∀ (k round : Nat) (done : List Bool) (q : Nat),
      flag (waitLoop health names k round done).2.2 q = true ↔
      (flag done q = true ∨
        ∃ r, (r, q) ∈ (waitLoop health names k round done).2.1 ∧
          health r q = .healthy) := by
  intro k
  induction k with
  | zero => intro round done q; simp [waitLoop]
  | succ k ih =>
    intro round done q
    simp only [waitLoop]
    rcases hf : (runRound health names round 0 done).2.2 with _ | f <;>
      simp only [hf]
    · by_cases hall : (runRound health names round 0 done).1.all (fun b => b) = true
      · rw [if_pos hall]
        constructor
        · intro h
          have h' : flag (runRound health names round 0 done).1 q = true := h
          rcases (runRound_flag_iff health names round done 0 q).mp h' with
            h1 | ⟨hm, hh⟩
          · exact Or.inl h1
          · rw [Nat.zero_add] at hm hh
            exact Or.inr ⟨round, hm, hh⟩
        · intro h
          show flag (runRound health names round 0 done).1 q = true
          apply (runRound_flag_iff health names round done 0 q).mpr
          rcases h with h1 | ⟨r, hm, hh⟩
          · exact Or.inl h1
          · have h1 : r = round :=
              (runRound_probes health names round done 0 (r, q) hm).1
            subst h1
            rw [Nat.zero_add]
            exact Or.inr ⟨hm, hh⟩
      · rw [if_neg hall]
        constructor
        · intro h
          have h' : flag (waitLoop health names k (round + 1)
              (runRound health names round 0 done).1).2.2 q = true := h
          rcases (ih (round + 1) _ q).mp h' with h1 | ⟨r, hm, hh⟩
          · rcases (runRound_flag_iff health names round done 0 q).mp h1 with
              h2 | ⟨hm, hh⟩
            · exact Or.inl h2
            · rw [Nat.zero_add] at hm hh
              exact Or.inr ⟨round, List.mem_append.mpr (Or.inl hm), hh⟩
          · exact Or.inr ⟨r, List.mem_append.mpr (Or.inr hm), hh⟩
        · intro h
          show flag (waitLoop health names k (round + 1)
              (runRound health names round 0 done).1).2.2 q = true
          apply (ih (round + 1) _ q).mpr
          rcases h with h1 | ⟨r, hm, hh⟩
          · exact Or.inl (runRound_flag_mono health names round done q h1)
          · rcases List.mem_append.mp hm with h' | h'
            · apply Or.inl
              apply (runRound_flag_iff health names round done 0 q).mpr
              have h1 : r = round :=
                (runRound_probes health names round done 0 (r, q) h').1
              subst h1
              rw [Nat.zero_add]
              exact Or.inr ⟨h', hh⟩
            · exact Or.inr ⟨r, h', hh⟩
    · constructor
      · intro h
        have h' : flag (runRound health names round 0 done).1 q = true := h
        rcases (runRound_flag_iff health names round done 0 q).mp h' with
          h1 | ⟨hm, hh⟩
        · exact Or.inl h1
        · rw [Nat.zero_add] at hm hh
          exact Or.inr ⟨round, hm, hh⟩
      · intro h
        show flag (runRound health names round 0 done).1 q = true
        apply (runRound_flag_iff health names round done 0 q).mpr
        rcases h with h1 | ⟨r, hm, hh⟩
        · exact Or.inl h1
        · have h1 : r = round :=
            (runRound_probes health names round done 0 (r, q) hm).1
          subst h1
          rw [Nat.zero_add]
          exact Or.inr ⟨hm, hh⟩

/-- The loop reports success exactly when all flags end up set (provided
they were not all set on entry). -/
theorem waitLoop_ok_iff (health : Nat → Nat → HealthCheckResult)
    (names : List String) :
    ∀ (k round : Nat) (done : List Bool),
      ¬ done.all (fun b => b) = true →
      ((waitLoop health names k round done).1 = .ok ↔
        (waitLoop health names k round done).2.2.all (fun b => b) = true) := by
  intro k
  induction k with
  | zero =>
    intro round done hnall
    constructor
    · intro h; exact StartupResult.noConfusion h
    · intro h; exact absurd h hnall
  | succ k ih =>
    intro round done hnall
    simp only [waitLoop]
    rcases hf : (runRound health names round 0 done).2.2 with _ | f <;>
      simp only [hf]
    · by_cases hall : (runRound health names round 0 done).1.all (fun b => b) = true
      · rw [if_pos hall]
        constructor
        · intro _; exact hall
        · intro _; rfl
      · rw [if_neg hall]
        exact ih (round + 1) (runRound health names round 0 done).1 hall
    · constructor
      · intro h; exact StartupResult.noConfusion h
      · intro h
        exact absurd h (runRound_fatal_not_all health names round done f.1 f.2 hf)

/-- A fatal loop result is caused by some probe in the trace that
reported `Unknown` or `NotRunning` with the same payload. -/
theorem waitLoop_fatal_src (health : Nat → Nat → HealthCheckResult)
    (names : List String) :
    ∀ (k round : Nat) (done : List Bool) (nm e : String),
      (waitLoop health names k round done).1 = .fatal nm e →
      ∃ r q, (r, q) ∈ (waitLoop health names k round done).2.1 ∧
        (health r q = .unknown e ∨ health r q = .notRunning e) := by
  intro k
  induction k with
  | zero => intro round done nm e h; exact StartupResult.noConfusion h
  | succ k ih =>
    intro round done nm e h
    simp only [waitLoop] at h ⊢
    rcases hf : (runRound health names round 0 done).2.2 with _ | f <;>
      simp only [hf] at h ⊢
    · by_cases hall : (runRound health names round 0 done).1.all (fun b => b) = true
      · rw [if_pos hall] at h
        exact StartupResult.noConfusion h
      · rw [if_neg hall] at h
        rw [if_neg hall]
        obtain ⟨r, q, hm, hh⟩ := ih (round + 1) _ nm e h
        exact ⟨r, q, List.mem_append.mpr (Or.inr hm), hh⟩
    · injection h with h1 h2
      have hfe : (runRound health names round 0 done).2.2 = some (nm, e) := by
        rw [hf]
        exact congrArg some (Prod.ext h1 h2)
      obtain ⟨q, hm, hh⟩ := runRound_fatal_src health names round done 0 nm e hfe
      exact ⟨round, q, hm, hh⟩

/-- Once a probe reports healthy, that validator is not probed in any
later round. -/
theorem waitLoop_healthy_last (health : Nat → Nat → HealthCheckResult)
    (names : List String) :
    ∀ (k round : Nat) (done : List Bool) (r q : Nat),
      (r, q) ∈ (waitLoop health names k round done).2.1 →
      health r q = .healthy →
      ∀ r', (r', q) ∈ (waitLoop health names k round done).2.1 → r' ≤ r := by
  intro k
  induction k with
  | zero => intro round done r q hm _ r' _; simp [waitLoop] at hm
  | succ k ih =>
    intro round done r q hm hh r' hm'
    simp only [waitLoop] at hm hm'
    rcases hf : (runRound health names round 0 done).2.2 with _ | f <;>
      simp only [hf] at hm hm'
    · by_cases hall : (runRound health names round 0 done).1.all (fun b => b) = true
      · rw [if_pos hall] at hm hm'
        have h1 : r = round :=
          (runRound_probes health names round done 0 (r, q) hm).1
        have h2 : r' = round :=
          (runRound_probes health names round done 0 (r', q) hm').1
        omega
      · rw [if_neg hall] at hm hm'
        rcases List.mem_append.mp hm with h | h
        · have h1 : r = round :=
            (runRound_probes health names round done 0 (r, q) h).1
          have hflags : flag (runRound health names round 0 done).1 q = true := by
            apply (runRound_flag_iff health names round done 0 q).mpr
            rw [Nat.zero_add]
            subst h1
            exact Or.inr ⟨h, hh⟩
          rcases List.mem_append.mp hm' with h' | h'
          · have h2 : r' = round :=
              (runRound_probes health names round done 0 (r', q) h').1
            omega
          · exact absurd h'
              (fun hc => waitLoop_no_probe_of_done health names k (round + 1)
                _ q r' hflags hc)
        · rcases List.mem_append.mp hm' with h' | h'
          · have h1 : r' = round :=
              (runRound_probes health names round done 0 (r', q) h').1
            have h2 := (waitLoop_probes health names k (round + 1) _ (r, q) h).1
            omega
          · exact ih (round + 1) _ r q h hh r' h'
    · have h1 : r = round :=
        (runRound_probes health names round done 0 (r, q) hm).1
      have h2 : r' = round :=
        (runRound_probes health names round done 0 (r', q) hm').1
      omega

/-- A `NotRunning` probe decides the whole loop: it is the final probe of
the trace and the loop result is the fatal error naming that node. -/
theorem waitLoop_notRunning (health : Nat → Nat → HealthCheckResult)
    (names : List String) :
    ∀ (k round : Nat) (done : List Bool) (r q : Nat) (e : String),
      (r, q) ∈ (waitLoop health names k round done).2.1 →
      health r q = .notRunning e →
      (waitLoop health names k round done).1 = .fatal (names.getD q "") e ∧
      (waitLoop health names k round done).2.1.getLast? = some (r, q) := by
  intro k
  induction k with
  | zero => intro round done r q e hm _; simp [waitLoop] at hm
  | succ k ih =>
    intro round done r q e hm hh
    simp only [waitLoop] at hm ⊢
    rcases hf : (runRound health names round 0 done).2.2 with _ | f <;>
      simp only [hf] at hm ⊢
    · by_cases hall : (runRound health names round 0 done).1.all (fun b => b) = true
      · rw [if_pos hall] at hm ⊢
        exfalso
        have h1 : r = round :=
          (runRound_probes health names round done 0 (r, q) hm).1
        subst h1
        obtain ⟨hsome, -⟩ :=
          runRound_fatal_of_probe health names r done 0 q e hm (Or.inr hh)
        rw [hf] at hsome
        exact Option.noConfusion hsome
      · rw [if_neg hall] at hm ⊢
        rcases List.mem_append.mp hm with h | h
        · exfalso
          have h1 : r = round :=
            (runRound_probes health names round done 0 (r, q) h).1
          subst h1
          obtain ⟨hsome, -⟩ :=
            runRound_fatal_of_probe health names r done 0 q e h (Or.inr hh)
          rw [hf] at hsome
          exact Option.noConfusion hsome
        · obtain ⟨hres, hlast⟩ := ih (round + 1) _ r q e h hh
          refine ⟨hres, ?_⟩
          show ((runRound health names round 0 done).2.1 ++
            (waitLoop health names k (round + 1)
              (runRound health names round 0 done).1).2.1).getLast? = some (r, q)
          rw [List.getLast?_append, hlast]
          rfl
    · have h1 : r = round :=
        (runRound_probes health names round done 0 (r, q) hm).1
      subst h1
      obtain ⟨hsome, hlast⟩ :=
        runRound_fatal_of_probe health names r done 0 q e hm (Or.inr hh)
      rw [hf] at hsome
      injection hsome with hfe
      refine ⟨?_, hlast⟩
      show StartupResult.fatal f.1 f.2 = .fatal (names.getD q "") e
      rw [hfe]

theorem all_iff_flag (l : List Bool) :
    l.all (fun b => b) = true ↔ ∀ q < l.length, flag l q = true := by
  rw [List.all_eq_true]
  constructor
  · intro h q hq
    unfold flag
    rw [List.getD_eq_getElem _ _ hq]
    exact h _ (List.getElem_mem _)
  · intro h x hx
    obtain ⟨q, hq, hxq⟩ := List.mem_iff_getElem.mp hx
    have := h q hq
    unfold flag at this
    rw [List.getD_eq_getElem _ _ hq] at this
    rw [← hxq]
    exact this

theorem flag_replicate_false (n q : Nat) :
    flag (List.replicate n false) q = false := by
  unfold flag
  by_cases h : q < n
  · rw [List.getD_eq_getElem _ _ (by simpa using h)]
    simp
  · rw [List.getD_eq_default]
    simpa using h

theorem replicate_false_not_all (n : Nat) (hn : 0 < n) :
    ¬ (List.replicate n false).all (fun b => b) = true := by
  intro h
  have := (all_iff_flag _).mp h 0 (by simpa using hn)
  rw [flag_replicate_false] at this
  exact absurd this (by simp)

/-! ### Claim theorems: C1 and C2 -/

/-- C1: during Startup Wait, a probe whose health check reports
`NotRunning` makes `wait_for_startup` return the fatal error naming that
validator at once: that probe is the last probe of the whole execution,
so no other validator is probed afterwards, no further round runs and the
failed validator is never retried. -/
theorem C1_not_running_fails_fast (health : Nat → Nat → HealthCheckResult)
    (names : List String) (r q : Nat) (e : String)
    (hmem : (r, q) ∈ (wait_for_startup health names).2.1)
    (hh : health r q = .notRunning e) :
    (wait_for_startup health names).1 = .fatal (names.getD q "") e ∧
    (wait_for_startup health names).2.1.getLast? = some (r, q) :=
  waitLoop_notRunning health names 10 0 _ r q e hmem hh

/-- Witness for C1 at a concrete two-validator swarm where the second
validator's process is down. -/
theorem C1_witness :
    (0, 1) ∈ (wait_for_startup healthCrash twoNames).2.1 ∧
    healthCrash 0 1 = .notRunning "crashed" ∧
    (wait_for_startup healthCrash twoNames).1 = .fatal "bob" "crashed" ∧
    (wait_for_startup healthCrash twoNames).2.1.getLast? = some (0, 1) := by
  have h := C1_not_running_fails_fast healthCrash twoNames 0 1 "crashed"
    (by decide) (by decide)
  exact ⟨by decide, by decide, h.1, h.2⟩

/-- C2: `wait_for_startup` probes within rounds 0..9 only; it succeeds
iff every validator position was reported healthy by some probe of the
trace; a validator reported healthy is never probed in a later round; and
when it does not succeed although no probe reported `Unknown` or
`NotRunning`, the result is the timeout error. -/
theorem C2_ten_rounds_success_iff (health : Nat → Nat → HealthCheckResult)
    (names : List String) :
    (∀ p ∈ (wait_for_startup health names).2.1, p.1 < 10) ∧
    ((wait_for_startup health names).1 = .ok ↔
      ∀ q < names.length, ∃ p ∈ (wait_for_startup health names).2.1,
        p.2 = q ∧ health p.1 q = .healthy) ∧
    (∀ r q, (r, q) ∈ (wait_for_startup health names).2.1 →
      health r q = .healthy →
      ∀ r', (r', q) ∈ (wait_for_startup health names).2.1 → r' ≤ r) ∧
    ((wait_for_startup health names).1 ≠ .ok →
      (∀ p ∈ (wait_for_startup health names).2.1, ∀ e,
        health p.1 p.2 ≠ .unknown e ∧ health p.1 p.2 ≠ .notRunning e) →
      (wait_for_startup health names).1 = .timeout) := by
  refine ⟨?_, ?_, ?_, ?_⟩
  · intro p hp
    have := (waitLoop_probes health names 10 0 _ p hp).2.1
    omega
  · by_cases hnil : names = []
    · constructor
      · intro _ q hq
        rw [hnil] at hq
        exact absurd hq (by simp)
      · intro _
        rw [wait_for_startup, hnil]
        rfl
    · have hnall : ¬ (List.replicate names.length false).all (fun b => b) = true :=
        replicate_false_not_all _ (List.length_pos.mpr hnil)
      rw [wait_for_startup]
      rw [waitLoop_ok_iff health names 10 0 _ hnall]
      rw [all_iff_flag]
      rw [waitLoop_final_length health names 10 0]
      rw [List.length_replicate]
      constructor
      · intro h q hq
        have := (waitLoop_flag_iff health names 10 0 _ q).mp (h q hq)
        rcases this with h1 | ⟨r, hm, hh⟩
        · rw [flag_replicate_false] at h1
          exact absurd h1 (by simp)
        · exact ⟨(r, q), hm, rfl, hh⟩
      · intro h q hq
        obtain ⟨p, hm, hpq, hh⟩ := h q hq
        apply (waitLoop_flag_iff health names 10 0 _ q).mpr
        refine Or.inr ⟨p.1, ?_, hh⟩
        have : p = (p.1, q) := by
          rw [← hpq]
        rwa [this] at hm
  · intro r q hm hh r' hm'
    exact waitLoop_healthy_last health names 10 0 _ r q hm hh r' hm'
  · intro hne hsafe
    rcases hres : (wait_for_startup health names).1 with _ | ⟨nm, e⟩ | _
    · exact absurd hres hne
    · exfalso
      obtain ⟨r, q, hm, hh⟩ := waitLoop_fatal_src health names 10 0 _ nm e hres
      have hs := hsafe (r, q) hm e
      rcases hh with hh | hh
      · exact hs.1 hh
      · exact hs.2 hh
    · rfl

/-- Witness for C2 at a concrete two-validator swarm where one validator
needs a second round to become healthy. -/
theorem C2_witness :
    (wait_for_startup healthSlow twoNames).1 = .ok :=
  (C2_ten_rounds_success_iff healthSlow twoNames).2.1.mpr (by decide)

/-! ### Claim theorems: topology mutation -/

theorem mapGet_insert_self {α : Type} (m : List (PeerId × α)) (k : PeerId)
    (v : α) : mapGet (mapInsert m k v) k = some v := by
  simp [mapGet, mapInsert]

/-- C3: when the validator exists and already has a paired full node,
`add_validator_fullnode` fails with the "already configured" error and
returns the swarm exactly as it was: full nodes, validator configs and
the name counter included. -/
theorem C3_duplicate_vfn_rejected (env : Env) (swarm : LocalSwarm)
    (version : Version) (template : NodeConfig) (vid : PeerId)
    (hv : (mapGet swarm.validators vid).isSome = true)
    (hf : (mapGet swarm.fullnodes vid).isSome = true) :
    (add_validator_fullnode env swarm version template vid).1 =
      .err s!"VFN for validator {vid} already configured" ∧
    (add_validator_fullnode env swarm version template vid).2 = swarm := by
  obtain ⟨val, hval⟩ := Option.isSome_iff_exists.mp hv
  simp [add_validator_fullnode, hval, hf]

/-- Witness for C3: a second pairing request against validator 7. -/
theorem C3_witness :
    (add_validator_fullnode envId swarmA 1 cfgA 7).1 =
      .err "VFN for validator 7 already configured" ∧
    (add_validator_fullnode envId swarmA 1 cfgA 7).2 = swarmA :=
  C3_duplicate_vfn_rejected envId swarmA 1 cfgA 7 (by decide) (by decide)

/-- C5: `upgrade_validator` resolves the version label first — an unknown
label yields the "Invalid version" error even when the id is also bad —
then the validator id; in both error cases the swarm is unchanged. -/
theorem C5_upgrade_error_order (env : Env) (swarm : LocalSwarm)
    (id : PeerId) (version : Version) :
    (versionGet swarm.versions version = none →
      (upgrade_validator env swarm id version).1 =
        .err s!"Invalid version: {version}" ∧
      (upgrade_validator env swarm id version).2 = swarm) ∧
    (∀ lv, versionGet swarm.versions version = some lv →
      mapGet swarm.validators id = none →
      (upgrade_validator env swarm id version).1 = .err s!"Invalid id: {id}" ∧
      (upgrade_validator env swarm id version).2 = swarm) := by
  constructor
  · intro h
    simp [upgrade_validator, h]
  · intro lv h1 h2
    simp [upgrade_validator, h1, h2]

/-- Witness for C5: version label 2 is unknown (also with a bad id 9),
and id 9 is unknown under the known label 1. -/
theorem C5_witness :
    ((upgrade_validator envId swarmA 9 2).1 = .err "Invalid version: 2" ∧
      (upgrade_validator envId swarmA 9 2).2 = swarmA) ∧
    ((upgrade_validator envId swarmA 9 1).1 = .err "Invalid id: 9" ∧
      (upgrade_validator envId swarmA 9 1).2 = swarmA) :=
  ⟨(C5_upgrade_error_order envId swarmA 9 2).1 (by decide),
   (C5_upgrade_error_order envId swarmA 9 1).2 "v1-bin" (by decide) (by decide)⟩

/-- C4: a successful `add_validator_fullnode` returns the validator's own
identifier and inserts the new full node under it; and when the created
full node's identifier differs from the validator's, the call aborts with
the `assert_eq!` panic rather than a recoverable error. -/
theorem C4_pairing_invariant (env : Env) (swarm : LocalSwarm)
    (version : Version) (template : NodeConfig) (vid : PeerId) :
    (∀ pid, (add_validator_fullnode env swarm version template vid).1 = .ok pid →
      pid = vid ∧
      (mapGet (add_validator_fullnode env swarm version template vid).2.fullnodes
        vid).isSome = true) ∧
    (∀ val fc lv fullnode,
      mapGet swarm.validators vid = some val →
      (mapGet swarm.fullnodes vid).isSome = false →
      env.validator_fullnode (toString swarm.node_name_counter)
        (SwarmDirectory.path swarm.dir) template val.config
        swarm.genesis_waypoint swarm.genesis = .ok fc →
      env.save_config fc.2 val.config_path = .ok () →
      env.restart { val with config := fc.2 } = .ok () →
      versionGet swarm.versions version = some lv →
      env.localNode_new lv fc.1.name fc.1.dir = .ok fullnode →
      fullnode.peer_id ≠ vid →
      (add_validator_fullnode env swarm version template vid).1 =
        .panic assertPeerIdMsg) := by
  constructor
  · intro pid
    unfold add_validator_fullnode
    cases hval : mapGet swarm.validators vid with
    | none => intro hres; exact absurd hres (by simp)
    | some val =>
      dsimp only
      by_cases hnf : (mapGet swarm.fullnodes vid).isSome = true
      · rw [if_pos hnf]
        intro hres; exact absurd hres (by simp)
      · rw [if_neg hnf]
        cases hvfn : env.validator_fullnode (toString swarm.node_name_counter)
            (SwarmDirectory.path swarm.dir) template val.config
            swarm.genesis_waypoint swarm.genesis with
        | error e => intro hres; exact absurd hres (by simp)
        | ok fc =>
          dsimp only
          cases hsave : env.save_config fc.2 val.config_path with
          | error e => intro hres; exact absurd hres (by simp)
          | ok u =>
            dsimp only
            cases hrestart : env.restart { val with config := fc.2 } with
            | error e => intro hres; exact absurd hres (by simp)
            | ok u2 =>
              dsimp only
              cases hver : versionGet swarm.versions version with
              | none => intro hres; exact absurd hres (by simp)
              | some lv =>
                dsimp only
                cases hnew : env.localNode_new lv fc.1.name fc.1.dir with
                | error e => intro hres; exact absurd hres (by simp)
                | ok fullnode =>
                  dsimp only
                  by_cases hpeer : fullnode.peer_id = vid
                  · rw [if_pos hpeer]
                    cases hstart : env.start fullnode with
                    | error e => intro hres; exact absurd hres (by simp)
                    | ok u3 =>
                      dsimp only
                      intro hres
                      have hpid : fullnode.peer_id = pid := by
                        have h : RustResult.ok (α := PeerId) fullnode.peer_id =
                            .ok pid := hres
                        injection h
                      refine ⟨Eq.trans hpid.symm hpeer, ?_⟩
                      show (mapGet (mapInsert swarm.fullnodes fullnode.peer_id
                        fullnode) vid).isSome = true
                      rw [hpeer, mapGet_insert_self]
                      rfl
                  · rw [if_neg hpeer]
                    intro hres; exact absurd hres (by simp)
  · intro val fc lv fullnode hval hnf hvfn hsave hrestart hver hnew hne
    simp only [add_validator_fullnode, hval, hnf, hvfn, hsave, hrestart, hver,
      hnew, Bool.false_eq_true, if_false, if_neg hne]

/-- Witness for C4: a successful pairing against validator 7 with a
well-behaved collaborator, and the panic when the collaborator hands
back identifier 8. -/
theorem C4_witness :
    ((7 : PeerId) = 7 ∧
      (mapGet (add_validator_fullnode envId swarmB 1 cfgA 7).2.fullnodes
        7).isSome = true) ∧
    (add_validator_fullnode envBadId swarmB 1 cfgA 7).1 =
      .panic assertPeerIdMsg :=
  ⟨(C4_pairing_invariant envId swarmB 1 cfgA 7).1 7 (by decide),
   (C4_pairing_invariant envBadId swarmB 1 cfgA 7).2
     nodeA ({ name := "1", dir := "/d/1" }, cfgA) "v1-bin"
     { name := "1", peer_id := 8, config := cfgA,
       config_path := "/d/1/node.yaml", version := "v1-bin" }
     (by decide) (by decide) (by rfl) (by rfl) (by rfl) (by decide)
     (by rfl) (by decide)⟩

/-- C10: with a version label absent from the registry, `add_fullnode`
and `add_validator_fullnode` (after their earlier checks pass) abort with
the `unwrap`-on-`None` panic at the registry lookup, while
`upgrade_validator` returns the recoverable "Invalid version" error for
the same condition. -/
theorem C10_missing_version_panics (env : Env) (swarm : LocalSwarm)
    (version : Version) (template : NodeConfig) (vid : PeerId)
    (hver : versionGet swarm.versions version = none) :
    (∀ fc, env.public_fullnode (toString swarm.node_name_counter)
        (SwarmDirectory.path swarm.dir) template
        swarm.genesis_waypoint swarm.genesis = .ok fc →
      (add_fullnode env swarm version template).1 = .panic unwrapNoneMsg) ∧
    (∀ val fc, mapGet swarm.validators vid = some val →
      (mapGet swarm.fullnodes vid).isSome = false →
      env.validator_fullnode (toString swarm.node_name_counter)
        (SwarmDirectory.path swarm.dir) template val.config
        swarm.genesis_waypoint swarm.genesis = .ok fc →
      env.save_config fc.2 val.config_path = .ok () →
      env.restart { val with config := fc.2 } = .ok () →
      (add_validator_fullnode env swarm version template vid).1 =
        .panic unwrapNoneMsg) ∧
    (upgrade_validator env swarm vid version).1 =
      .err s!"Invalid version: {version}" := by
  refine ⟨?_, ?_, ?_⟩
  · intro fc hpub
    simp only [add_fullnode, hpub, hver]
  · intro val fc hval hnf hvfn hsave hrestart
    simp only [add_validator_fullnode, hval, hnf, hvfn, hsave, hrestart,
      Bool.false_eq_true, if_false, hver]
  · simp only [upgrade_validator, hver]

/-- Witness for C10: label 2 is absent from `swarmB`'s registry. -/
theorem C10_witness :
    (add_fullnode envId swarmB 2 cfgA).1 = .panic unwrapNoneMsg ∧
    (add_validator_fullnode envId swarmB 2 cfgA 7).1 = .panic unwrapNoneMsg ∧
    (upgrade_validator envId swarmB 7 2).1 = .err "Invalid version: 2" :=
  ⟨(C10_missing_version_panics envId swarmB 2 cfgA 7 (by decide)).1
      { name := "1", dir := "/d/1" } (by rfl),
   (C10_missing_version_panics envId swarmB 2 cfgA 7 (by decide)).2.1
      nodeA ({ name := "1", dir := "/d/1" }, cfgA) (by decide) (by decide)
      (by rfl) (by rfl) (by rfl),
   (C10_missing_version_panics envId swarmB 2 cfgA 7 (by decide)).2.2⟩

/-! ### Claim theorems: directory promotion -/

/-- C8: `persist` always yields a durable directory with the same path
(contents preserved in place), it is idempotent, and a durable directory
is left untouched (never demoted). -/
theorem C8_persist_idempotent (d : SwarmDirectory) :
    (SwarmDirectory.persist d).isPersistent = true ∧
    (SwarmDirectory.persist d).path = d.path ∧
    SwarmDirectory.persist (SwarmDirectory.persist d) = SwarmDirectory.persist d ∧
    (d.isPersistent = true → SwarmDirectory.persist d = d) := by
  cases d <;>
    simp [SwarmDirectory.persist, SwarmDirectory.into_persistent,
      SwarmDirectory.path, SwarmDirectory.isPersistent]

/-- Witness for C8: promotion of a concrete ephemeral directory, and the
no-op on a concrete durable one. -/
theorem C8_witness :
    (SwarmDirectory.persist (.temporary "/tmp/swarm")).isPersistent = true ∧
    (SwarmDirectory.persist (.temporary "/tmp/swarm")).path = "/tmp/swarm" ∧
    SwarmDirectory.persist (SwarmDirectory.persist (.temporary "/tmp/swarm")) =
      SwarmDirectory.persist (.temporary "/tmp/swarm") ∧
    SwarmDirectory.persist (.persistent "/logs") = .persistent "/logs" :=
  ⟨(C8_persist_idempotent (.temporary "/tmp/swarm")).1,
   (C8_persist_idempotent (.temporary "/tmp/swarm")).2.1,
   (C8_persist_idempotent (.temporary "/tmp/swarm")).2.2.1,
   (C8_persist_idempotent (.persistent "/logs")).2.2.2 rfl⟩

/-! ### Claim theorems: node-name uniqueness -/

theorem opGenNames_eq (s : LocalSwarm) (op : SwarmOp) (name : String)
    (h : name ∈ opGenNames s op) : name = toString s.node_name_counter := by
  cases op with
  | addFull v t => simpa [opGenNames] using h
  | addVFN v t vid =>
    simp only [opGenNames] at h
    split at h
    · simp at h
    · split at h
      · simp at h
      · simpa using h
  | removeFull id => simp [opGenNames] at h

theorem add_fullnode_counter (env : Env) (s : LocalSwarm) (v : Version)
    (t : NodeConfig) :
    (add_fullnode env s v t).2.node_name_counter = s.node_name_counter + 1 := by
  unfold add_fullnode
  dsimp only
  cases hpub : env.public_fullnode (toString s.node_name_counter)
      (SwarmDirectory.path s.dir) t s.genesis_waypoint s.genesis with
  | error e => rfl
  | ok fc =>
    dsimp only
    cases hver : versionGet s.versions v with
    | none => rfl
    | some lv =>
      dsimp only
      cases hnew : env.localNode_new lv fc.name fc.dir with
      | error e => rfl
      | ok fullnode =>
        dsimp only
        cases hstart : env.start fullnode with
        | error e => rfl
        | ok u => rfl

theorem add_vfn_state_noval (env : Env) (s : LocalSwarm) (v : Version)
    (t : NodeConfig) (vid : PeerId) (h : mapGet s.validators vid = none) :
    (add_validator_fullnode env s v t vid).2 = s := by
  simp [add_validator_fullnode, h]

theorem add_vfn_state_dup (env : Env) (s : LocalSwarm) (v : Version)
    (t : NodeConfig) (vid : PeerId) (val : LocalNode)
    (hval : mapGet s.validators vid = some val)
    (hnf : (mapGet s.fullnodes vid).isSome = true) :
    (add_validator_fullnode env s v t vid).2 = s := by
  simp [add_validator_fullnode, hval, hnf]

theorem add_vfn_counter_pass (env : Env) (s : LocalSwarm) (v : Version)
    (t : NodeConfig) (vid : PeerId) (val : LocalNode)
    (hval : mapGet s.validators vid = some val)
    (hnf : ¬ (mapGet s.fullnodes vid).isSome = true) :
    (add_validator_fullnode env s v t vid).2.node_name_counter =
      s.node_name_counter + 1 := by
  unfold add_validator_fullnode
  rw [hval]
  dsimp only
  rw [if_neg hnf]
  cases hvfn : env.validator_fullnode (toString s.node_name_counter)
      (SwarmDirectory.path s.dir) t val.config
      s.genesis_waypoint s.genesis with
  | error e => rfl
  | ok fc =>
    dsimp only
    cases hsave : env.save_config fc.2 val.config_path with
    | error e => rfl
    | ok u =>
      dsimp only
      cases hrestart : env.restart { val with config := fc.2 } with
      | error e => rfl
      | ok u2 =>
        dsimp only
        cases hver : versionGet s.versions v with
        | none => rfl
        | some lv =>
          dsimp only
          cases hnew : env.localNode_new lv fc.1.name fc.1.dir with
          | error e => rfl
          | ok fullnode =>
            dsimp only
            by_cases hpeer : fullnode.peer_id = vid
            · rw [if_pos hpeer]
              cases hstart : env.start fullnode with
              | error e => rfl
              | ok u3 => rfl
            · rw [if_neg hpeer]

theorem add_vfn_counter (env : Env) (s : LocalSwarm) (v : Version)
    (t : NodeConfig) (vid : PeerId) :
    (add_validator_fullnode env s v t vid).2.node_name_counter =
      s.node_name_counter + (opGenNames s (.addVFN v t vid)).length := by
  cases hval : mapGet s.validators vid with
  | none =>
    simp only [opGenNames, hval]
    rw [add_vfn_state_noval env s v t vid hval]
    rfl
  | some val =>
    by_cases hnf : (mapGet s.fullnodes vid).isSome = true
    · simp only [opGenNames, hval, hnf, if_true]
      rw [add_vfn_state_dup env s v t vid val hval hnf]
      rfl
    · simp only [opGenNames, hval, hnf, if_false]
      rw [add_vfn_counter_pass env s v t vid val hval hnf]
      rfl

theorem remove_full_node_counter (s : LocalSwarm) (id : PeerId) :
    (remove_full_node s id).2.node_name_counter = s.node_name_counter := by
  unfold remove_full_node
  cases h : mapGet s.fullnodes id <;> rfl

theorem applyOp_counter (env : Env) (s : LocalSwarm) (op : SwarmOp) :
    (applyOp env s op).node_name_counter =
      s.node_name_counter + (opGenNames s op).length := by
  cases op with
  | addFull v t =>
    show (add_fullnode env s v t).2.node_name_counter = _
    rw [add_fullnode_counter]
    rfl
  | addVFN v t vid => exact add_vfn_counter env s v t vid
  | removeFull id =>
    show (remove_full_node s id).2.node_name_counter = _
    rw [remove_full_node_counter]
    rfl

theorem runOps_counter_le (env : Env) :
    ∀ (ops : List SwarmOp) (s : LocalSwarm),
      s.node_name_counter ≤ (runOps env s ops).2.node_name_counter := by
  intro ops
  induction ops with
  | nil => intro s; exact Nat.le_refl _
  | cons op rest ih =>
    intro s
    simp only [runOps]
    have h1 := applyOp_counter env s op
    have h2 := ih (applyOp env s op)
    omega

theorem runOps_names_bound (env : Env) :
    ∀ (ops : List SwarmOp) (s : LocalSwarm) (name : String),
      name ∈ (runOps env s ops).1 →
      ∃ c, name = toString c ∧ s.node_name_counter ≤ c ∧
        c < (runOps env s ops).2.node_name_counter := by
  intro ops
  induction ops with
  | nil => intro s name h; simp [runOps] at h
  | cons op rest ih =>
    intro s name h
    simp only [runOps] at h ⊢
    rcases List.mem_append.mp h with hm | hm
    · have hname := opGenNames_eq s op name hm
      refine ⟨s.node_name_counter, hname, Nat.le_refl _, ?_⟩
      have h1 := applyOp_counter env s op
      have h2 := runOps_counter_le env rest (applyOp env s op)
      have hlen : 1 ≤ (opGenNames s op).length :=
        List.length_pos.mpr (List.ne_nil_of_mem hm)
      omega
    · obtain ⟨c, h1, h2, h3⟩ := ih (applyOp env s op) name hm
      have h4 := applyOp_counter env s op
      exact ⟨c, h1, by omega, h3⟩

theorem opGenNames_nodup (s : LocalSwarm) (op : SwarmOp) :
    (opGenNames s op).Nodup := by
  cases op with
  | addFull v t => simp [opGenNames]
  | addVFN v t vid =>
    simp only [opGenNames]
    split
    · exact List.nodup_nil
    · split
      · exact List.nodup_nil
      · simp
  | removeFull id => exact List.nodup_nil

/-- C7: over any sequence of add and remove operations on one swarm, the
generated node names (drawn from the strictly increasing
`node_name_counter`) are pairwise distinct — a name is never reused, even
after a removal. -/
theorem C7_generated_names_unique (env : Env) (s : LocalSwarm)
    (ops : List SwarmOp) : (runOps env s ops).1.Nodup := by
  induction ops generalizing s with
  | nil => exact List.nodup_nil
  | cons op rest ih =>
    simp only [runOps]
    rw [List.nodup_append]
    refine ⟨opGenNames_nodup s op, ih (applyOp env s op), ?_⟩
    intro a ha hb
    have hname := opGenNames_eq s op a ha
    obtain ⟨c, h1, h2, h3⟩ := runOps_names_bound env rest (applyOp env s op) a hb
    have h4 := applyOp_counter env s op
    have hlen : 1 ≤ (opGenNames s op).length :=
      List.length_pos.mpr (List.ne_nil_of_mem ha)
    have hc : s.node_name_counter = c := by
      apply natToString_inj
      rw [← hname, ← h1]
    omega

/-! ### Claim theorems: the single-validator poll-count special case -/

/-- Counterexample to C9 as stated: with a single validator and a
template whose poll count is 100, `build` sets the poll count to the
fixed constant 30, which is a downward adjustment, not an upward one. -/
theorem C9_counterexample :
    b100.number_of_validators = 1 ∧
    (adjustedTemplate b100).consensus.quorum_store_poll_count <
      b100.template.consensus.quorum_store_poll_count := by decide

/-- C9 (amended): with exactly one validator, `build` sets the template's
quorum-store poll count to the fixed constant 30 (leaving every other
template field unchanged) before invoking the Genesis Provisioner —
whether or not that is an increase; with more than one validator the
template passes through unchanged. -/
theorem C9_poll_count_override (b : LocalSwarmBuilder) :
    (b.number_of_validators = 1 →
      adjustedTemplate b =
        { b.template with consensus :=
            { b.template.consensus with quorum_store_poll_count := 30 } }) ∧
    (b.number_of_validators ≠ 1 → adjustedTemplate b = b.template) := by
  constructor
  · intro h
    simp [adjustedTemplate, h]
  · intro h
    simp [adjustedTemplate, h]

/-- Witness for C9 at the one- and two-validator builders. -/
theorem C9_witness :
    adjustedTemplate b100 =
      { b100.template with consensus :=
          { b100.template.consensus with quorum_store_poll_count := 30 } } ∧
    adjustedTemplate b2 = b2.template :=
  ⟨(C9_poll_count_override b100).1 (by decide),
   (C9_poll_count_override b2).2 (by decide)⟩

/-! ### Claim theorems: build and the version registry -/

/-- Counterexample to C6 as stated: with version label 2 explicitly
selected but absent from the registry (and every earlier build step
succeeding), `build` does not return an error — it aborts with the
`unwrap`-on-`None` panic. -/
theorem C6_counterexample :
    build envId builderNoV2 = .panic unwrapNoneMsg := by decide

/-- C6 (amended): when the explicitly selected initial version is absent
from the registry, or the registry is empty and no initial version was
set, `build` panics at the registry lookup (`unwrap` on `None`) — a
fatal abort rather than a returned error — and no Swarm Runtime is
returned. -/
theorem C6_version_miss_aborts_build (env : Env) (b : LocalSwarmBuilder) :
    (∀ dir g, b.initial_version = none → b.versions = [] →
      resolveDir env b = .ok dir →
      env.genesis_build (SwarmDirectory.path dir)
        (b.genesis_modules.getD env.default_modules) b.number_of_validators
        (adjustedTemplate b) b.min_price_per_gas_unit = .ok g →
      build env b = .panic unwrapNoneMsg) ∧
    (∀ dir g v, b.initial_version = some v → versionGet b.versions v = none →
      resolveDir env b = .ok dir →
      env.genesis_build (SwarmDirectory.path dir)
        (b.genesis_modules.getD env.default_modules) b.number_of_validators
        (adjustedTemplate b) b.min_price_per_gas_unit = .ok g →
      build env b = .panic unwrapNoneMsg) := by
  constructor
  · intro dir g hiv hempty hdir hgen
    simp [build, hdir, hgen, hiv, hempty, maxByKey]
  · intro dir g v hiv hver hdir hgen
    simp [build, hdir, hgen, hiv, hver]

/-- Witness for C6 at the empty-registry builder and at the builder that
selects the absent label 2. -/
theorem C6_witness :
    build envId builderEmptyV = .panic unwrapNoneMsg ∧
    build envId builderNoV2 = .panic unwrapNoneMsg :=
  ⟨(C6_version_miss_aborts_build envId builderEmptyV).1
      (.temporary "/tmp/swarm")
      ("rootkey", "genesis", "waypoint", [{ name := "0", dir := "/v/0" }])
      (by decide) (by decide) (by rfl) (by rfl),
   (C6_version_miss_aborts_build envId builderNoV2).2
      (.temporary "/tmp/swarm")
      ("rootkey", "genesis", "waypoint", [{ name := "0", dir := "/v/0" }])
      2 (by decide) (by decide) (by rfl) (by rfl)⟩

end Swarm
